import Mathlib

/-
Verification of the in-memory table store of the In-Memory-DB-Service
repository.  The development shallowly embeds the three store variants:

  * backend/app/db/base.py    (class InMemoryDB: indexed, copying store) —
    modelled by the DB/Tbl definitions below;
  * backend/app/crud.py       (class InMemoryDB over the module-level
    `tables` dict: string record ids, cascade inside delete_record,
    join_tables) — modelled by the CDB definitions;
  * backend/app/core/db.py    (class MemoryDB: typed users/orders maps,
    join_user_orders) — modelled by the MDB definitions.

Python dicts are embedded as association lists (first binding wins, as the
operations below never create duplicate keys); Python sets of record ids as
lists with membership semantics; uuid4 generation as a fresh counter carried
by the state; datetime values as explicit parameters.  Aliasing behaviour
(dict copies versus live references) is modelled separately with an explicit
heap at the end of the definition section.
-/

namespace InMemDB

/-- Field values stored in records: null, booleans, numbers, strings, and
record identifiers rendered as strings (Python str(uuid)). -/
inductive Value where
  | vNull : Value
  | vBool : Bool → Value
  | vNat : Nat → Value
  | vInt : Int → Value
  | vStr : String → Value
  | vId : Nat → Value
deriving DecidableEq, Repr

/-- Record identifiers of the base store (uuid4 values, determinised as a
counter). -/
abbrev RId := Nat

/-- A Python dict embedded as an association list. -/
abbrev AList (κ α : Type) := List (κ × α)

/-- Dict lookup: value at the first binding of the key. -/
def aget {κ α : Type} [DecidableEq κ] : AList κ α → κ → Option α
  | [], _ => none
  | (k', v) :: t, k => if k' = k then some v else aget t k

/-- Dict membership test. -/
def ahas {κ α : Type} [DecidableEq κ] (l : AList κ α) (k : κ) : Bool :=
  (aget l k).isSome

/-- Dict write: replace the first binding of the key, or append a new one. -/
def aset {κ α : Type} [DecidableEq κ] : AList κ α → κ → α → AList κ α
  | [], k, v => [(k, v)]
  | (k', v') :: t, k, v => if k' = k then (k, v) :: t else (k', v') :: aset t k v

/-- Dict deletion: remove the first binding of the key. -/
def adel {κ α : Type} [DecidableEq κ] : AList κ α → κ → AList κ α
  | [], _ => []
  | (k', v') :: t, k => if k' = k then t else (k', v') :: adel t k

/-- The keys of a dict in order. -/
def akeys {κ α : Type} (l : AList κ α) : List κ :=
  l.map Prod.fst

@[simp]
theorem akeys_nil {κ α : Type} : akeys ([] : AList κ α) = [] := rfl

@[simp]
theorem akeys_cons {κ α : Type} (k : κ) (v : α) (t : AList κ α) :
    akeys ((k, v) :: t) = k :: akeys t := rfl

@[simp]
theorem aget_nil {κ α : Type} [DecidableEq κ] (k : κ) :
    aget ([] : AList κ α) k = none := rfl

@[simp]
theorem aget_cons {κ α : Type} [DecidableEq κ] (k' : κ) (v : α) (t : AList κ α) (k : κ) :
    aget ((k', v) :: t) k = if k' = k then some v else aget t k := rfl

theorem aget_aset {κ α : Type} [DecidableEq κ] (l : AList κ α) (k : κ) (v : α) (k' : κ) :
    aget (aset l k v) k' = if k = k' then some v else aget l k' := by
  induction l with
  | nil => simp [aset]
  | cons p t ih =>
    obtain ⟨k₀, v₀⟩ := p
    by_cases h₀ : k₀ = k
    · subst h₀
      by_cases h₁ : k₀ = k'
      · subst h₁; simp [aset]
      · simp [aset, h₁]
    · by_cases h₁ : k₀ = k'
      · subst h₁
        have hkk : ¬ k = k₀ := fun h => h₀ h.symm
        simp [aset, h₀, hkk]
      · simp [aset, h₀, h₁, ih]

theorem aget_adel_ne {κ α : Type} [DecidableEq κ] (l : AList κ α) (k k' : κ) (h : k ≠ k') :
    aget (adel l k) k' = aget l k' := by
  induction l with
  | nil => simp [adel]
  | cons p t ih =>
    obtain ⟨k₀, v₀⟩ := p
    by_cases h₀ : k₀ = k
    · subst h₀
      have : ¬ k₀ = k' := fun hc => h hc
      simp [adel, this]
    · simp [adel, h₀, ih]

theorem aget_mem_akeys {κ α : Type} [DecidableEq κ] {l : AList κ α} {k : κ} {v : α}
    (h : aget l k = some v) : k ∈ akeys l := by
  induction l with
  | nil => simp [aget] at h
  | cons p t ih =>
    obtain ⟨k₀, v₀⟩ := p
    by_cases h₀ : k₀ = k
    · subst h₀; simp
    · simp only [aget_cons, h₀, if_false] at h
      simp only [akeys_cons, List.mem_cons]
      exact Or.inr (ih h)

theorem aget_eq_none_of_not_mem {κ α : Type} [DecidableEq κ] {l : AList κ α} {k : κ}
    (h : k ∉ akeys l) : aget l k = none := by
  cases hag : aget l k with
  | none => rfl
  | some v => exact absurd (aget_mem_akeys hag) h

theorem aget_adel_self {κ α : Type} [DecidableEq κ] (l : AList κ α) (k : κ)
    (hnd : (akeys l).Nodup) : aget (adel l k) k = none := by
  induction l with
  | nil => simp [adel]
  | cons p t ih =>
    obtain ⟨k₀, v₀⟩ := p
    simp only [akeys_cons, List.nodup_cons] at hnd
    by_cases h₀ : k₀ = k
    · subst h₀
      simpa [adel] using aget_eq_none_of_not_mem hnd.1
    · simp [adel, h₀, ih hnd.2]

theorem akeys_aset_subset {κ α : Type} [DecidableEq κ] (l : AList κ α) (k : κ) (v : α) :
    ∀ k' ∈ akeys (aset l k v), k' = k ∨ k' ∈ akeys l := by
  induction l with
  | nil =>
    intro k' hk'
    simp only [aset, akeys_cons, akeys_nil, List.mem_singleton] at hk'
    exact Or.inl hk'
  | cons p t ih =>
    obtain ⟨k₀, v₀⟩ := p
    intro k' hk'
    by_cases h₀ : k₀ = k
    · subst h₀
      simp [aset] at hk'
      simp only [akeys_cons, List.mem_cons]
      tauto
    · simp only [aset, h₀, if_false, akeys_cons, List.mem_cons] at hk'
      simp only [akeys_cons, List.mem_cons]
      rcases hk' with h | h
      · exact Or.inr (Or.inl h)
      · rcases ih k' h with h' | h'
        · exact Or.inl h'
        · exact Or.inr (Or.inr h')

theorem akeys_adel_subset {κ α : Type} [DecidableEq κ] (l : AList κ α) (k : κ) :
    ∀ k' ∈ akeys (adel l k), k' ∈ akeys l := by
  induction l with
  | nil => simp [adel]
  | cons p t ih =>
    obtain ⟨k₀, v₀⟩ := p
    intro k' hk'
    by_cases h₀ : k₀ = k
    · subst h₀
      simp only [adel, if_pos rfl] at hk'
      simp only [akeys_cons, List.mem_cons]
      exact Or.inr hk'
    · simp only [adel, h₀, if_false, akeys_cons, List.mem_cons] at hk'
      simp only [akeys_cons, List.mem_cons]
      rcases hk' with h | h
      · exact Or.inl h
      · exact Or.inr (ih k' h)

theorem akeys_aset_nodup {κ α : Type} [DecidableEq κ] (l : AList κ α) (k : κ) (v : α)
    (h : (akeys l).Nodup) : (akeys (aset l k v)).Nodup := by
  induction l with
  | nil => simp [aset]
  | cons p t ih =>
    obtain ⟨k₀, v₀⟩ := p
    simp only [akeys_cons, List.nodup_cons] at h
    by_cases h₀ : k₀ = k
    · subst h₀
      simpa [aset] using h
    · simp only [aset, h₀, if_false, akeys_cons, List.nodup_cons]
      refine ⟨fun hc => ?_, ih h.2⟩
      rcases akeys_aset_subset t k v k₀ hc with h' | h'
      · exact h₀ h'
      · exact h.1 h'

theorem akeys_adel_nodup {κ α : Type} [DecidableEq κ] (l : AList κ α) (k : κ)
    (h : (akeys l).Nodup) : (akeys (adel l k)).Nodup := by
  induction l with
  | nil => simp [adel]
  | cons p t ih =>
    obtain ⟨k₀, v₀⟩ := p
    simp only [akeys_cons, List.nodup_cons] at h
    by_cases h₀ : k₀ = k
    · subst h₀
      simpa [adel] using h.2
    · simp only [adel, h₀, if_false, akeys_cons, List.nodup_cons]
      exact ⟨fun hc => h.1 (akeys_adel_subset t k k₀ hc), ih h.2⟩

/-- A record: Python dict from field names to values. -/
abbrev Rec := AList String Value

/-- Python dict.update: apply each binding of the update data left to
right. -/
def rupdate (r : Rec) : Rec → Rec
  | [] => r
  | (k, v) :: d => rupdate (aset r k v) d

theorem aget_rupdate (d : Rec) (r : Rec) (k : String) (hnd : (akeys d).Nodup) :
    aget (rupdate r d) k = match aget d k with
      | some v => some v
      | none => aget r k := by
  induction d generalizing r with
  | nil => simp [rupdate]
  | cons p d' ih =>
    obtain ⟨k₀, v₀⟩ := p
    simp only [akeys_cons, List.nodup_cons] at hnd
    by_cases h₀ : k₀ = k
    · subst h₀
      have hnone : aget d' k₀ = none := aget_eq_none_of_not_mem hnd.1
      simp [rupdate, ih _ hnd.2, hnone, aget_aset]
    · simp [rupdate, ih _ hnd.2, h₀, aget_aset]

theorem aget_rupdate_isSome (d : Rec) (r : Rec) (k : String)
    (h : (aget r k).isSome) : (aget (rupdate r d) k).isSome := by
  induction d generalizing r with
  | nil => simpa [rupdate] using h
  | cons p d' ih =>
    obtain ⟨k₀, v₀⟩ := p
    apply ih
    rw [aget_aset]
    by_cases h₀ : k₀ = k <;> simp [h₀, h]

/-
Model of backend/app/db/base.py (class InMemoryDB).
-/

/-- Index buckets of one field: field value to the set of record ids
(Python set, embedded as a list with membership semantics). -/
abbrev Buckets := AList Value (List RId)

/-- Per-table index structure: registered field name to its buckets. -/
abbrev Idx := AList String Buckets

/-- One table of InMemoryDB: the slots storage[t] and indexes[t] of the two
defaultdicts, bundled since every operation addresses both with the same
table name. -/
structure Tbl where
  recs : AList RId Rec
  idx : Idx
deriving DecidableEq, Repr

/-- The empty table produced by the defaultdict default factories. -/
def Tbl.empty : Tbl := ⟨[], []⟩

/-- Whole InMemoryDB state: the tables plus the uuid4 source determinised
as a counter of fresh record ids. -/
structure DB where
  tbls : AList String Tbl
  next : RId
deriving DecidableEq, Repr

/-- The freshly constructed singleton state. -/
def dbInit : DB := ⟨[], 0⟩

/-- Reading a defaultdict slot: absent tables behave as empty. -/
def getTbl (db : DB) (t : String) : Tbl := (aget db.tbls t).getD Tbl.empty

def setTbl (db : DB) (t : String) (x : Tbl) : DB := ⟨aset db.tbls t x, db.next⟩

/-- set.add on a bucket; the defaultdict access creates the bucket when it
is absent. -/
def bucketAdd (b : Buckets) (v : Value) (rid : RId) : Buckets :=
  let l := (aget b v).getD []
  aset b v (if rid ∈ l then l else l ++ [rid])

/-- set.discard on a bucket; the defaultdict access creates the bucket when
it is absent. -/
def bucketDiscard (b : Buckets) (v : Value) (rid : RId) : Buckets :=
  aset b v (((aget b v).getD []).filter (fun x => x ≠ rid))

/-- Loop `for field in indexes[t]: if field in record: add the id to the
bucket of record[field]` from create_record and the add phase of
update_record; iteration is over the registered fields. -/
def idxAddAll (i : Idx) (r : Rec) (rid : RId) : Idx :=
  i.map (fun p => match aget r p.1 with
    | some v => (p.1, bucketAdd p.2 v rid)
    | none => p)

/-- The matching discard loop of update_record and delete_record. -/
def idxDiscardAll (i : Idx) (r : Rec) (rid : RId) : Idx :=
  i.map (fun p => match aget r p.1 with
    | some v => (p.1, bucketDiscard p.2 v rid)
    | none => p)

/-- InMemoryDB.create_record: copy the payload, set its id field to the
fresh uuid, store it under the fresh id, and add the id to the bucket of
every registered index field present in the stored payload. -/
def createRecord (db : DB) (t : String) (data : Rec) : RId × DB :=
  let rid := db.next
  let ts := getTbl db t
  let data1 := aset data "id" (Value.vId rid)
  let ts1 : Tbl := ⟨aset ts.recs rid data1, idxAddAll ts.idx data1 rid⟩
  (rid, ⟨aset db.tbls t ts1, db.next + 1⟩)

/-- InMemoryDB.get_record: a copy of the record, or None.  The walrus
truthiness test also maps a stored empty dict to None.  The defaultdict
side effect of registering an empty storage slot for an unknown table is
dropped here: it is invisible to every modelled operation. -/
def getRecord (db : DB) (t : String) (rid : RId) : Option Rec :=
  match aget (getTbl db t).recs rid with
  | some r => if r = [] then none else some r
  | none => none

/-- InMemoryDB.update_record: discard the old index entries, merge the
update data with its id key deleted, store the merge, then add the new
index entries. -/
def updateRecord (db : DB) (t : String) (rid : RId) (data : Rec) : Bool × DB :=
  let ts := getTbl db t
  match aget ts.recs rid with
  | none => (false, db)
  | some old =>
    let idx1 := idxDiscardAll ts.idx old rid
    let newRec := rupdate old (adel data "id")
    (true, setTbl db t ⟨aset ts.recs rid newRec, idxAddAll idx1 newRec rid⟩)

/-- InMemoryDB.delete_record: discard the record id from the bucket of each
registered field present in the stored record, then delete the record. -/
def deleteRecord (db : DB) (t : String) (rid : RId) : Bool × DB :=
  let ts := getTbl db t
  match aget ts.recs rid with
  | none => (false, db)
  | some r =>
    (true, setTbl db t ⟨adel ts.recs rid, idxDiscardAll ts.idx r rid⟩)

/-- InMemoryDB.get_by_index: read indexes[t][f][v] through three defaultdict
levels — the access registers field f and an empty bucket for v when they
are absent — and return a copy of the id set. -/
def getByIndex (db : DB) (t f : String) (v : Value) : List RId × DB :=
  let ts := getTbl db t
  let b := (aget ts.idx f).getD []
  let ids := (aget b v).getD []
  (ids, setTbl db t ⟨ts.recs, aset ts.idx f (aset b v ids)⟩)

/-- InMemoryDB.create_index: scan the existing records once, adding each
record carrying the field to the bucket of its value.  The field is
registered only by the defaultdict access inside the loop, so on an empty
table nothing is registered. -/
def createIndex (db : DB) (t f : String) : DB :=
  let ts := getTbl db t
  let idx1 := ts.recs.foldl
    (fun i p => match aget p.2 f with
      | some v => aset i f (bucketAdd ((aget i f).getD []) v p.1)
      | none => i) ts.idx
  setTbl db t ⟨ts.recs, idx1⟩

/-- InMemoryDB.list_records: copies of all records of the table. -/
def listRecords (db : DB) (t : String) : List Rec :=
  (getTbl db t).recs.map Prod.snd

/-- InMemoryDB.clear_table: clear the storage dict and the whole index dict
of the table. -/
def clearTable (db : DB) (t : String) : DB := setTbl db t Tbl.empty

/-- Error raised by the service layer when a read misses. -/
inductive SvcErr where
  | recordNotFound : SvcErr
deriving DecidableEq, Repr

/-- Service-layer read (user_service.get_user / order_service.get_order):
a None result of get_record is raised as RecordNotFoundError. -/
def serviceGet (db : DB) (t : String) (rid : RId) : Except SvcErr Rec :=
  match getRecord db t rid with
  | some r => .ok r
  | none => .error .recordNotFound

/-- The ids the index structure of a table associates to value v of field f. -/
def bucketIds (i : Idx) (f : String) (v : Value) : List RId :=
  (aget ((aget i f).getD []) v).getD []

/-- Index consistency of one table: for every registered field, every value
and every id, the id sits in the bucket of v exactly when its stored record
has that field equal to v. -/
def tblConsistent (ts : Tbl) : Prop :=
  ∀ f, (aget ts.idx f).isSome → ∀ v rid,
    rid ∈ bucketIds ts.idx f v ↔ ∃ r, aget ts.recs rid = some r ∧ aget r f = some v

/-- Index consistency of the whole store. -/
def dbConsistent (db : DB) : Prop := ∀ t, tblConsistent (getTbl db t)

/-- Well-formedness of a table: storage keys are unique (a Python dict) and
lie below the fresh-id counter (uuid4 freshness, determinised). -/
def wfTbl (n : RId) (ts : Tbl) : Prop :=
  (akeys ts.recs).Nodup ∧ ∀ rid ∈ akeys ts.recs, rid < n

def wfDB (db : DB) : Prop := ∀ t, wfTbl db.next (getTbl db t)

/-- States reachable through the public operations of InMemoryDB, starting
from the freshly constructed store. -/
inductive Reach : DB → Prop where
  | init : Reach dbInit
  | create (db : DB) (t : String) (d : Rec) : Reach db → Reach (createRecord db t d).2
  | update (db : DB) (t : String) (rid : RId) (d : Rec) :
      Reach db → Reach (updateRecord db t rid d).2
  | delete (db : DB) (t : String) (rid : RId) : Reach db → Reach (deleteRecord db t rid).2
  | clearTab (db : DB) (t : String) : Reach db → Reach (clearTable db t)
  | mkIndex (db : DB) (t f : String) : Reach db → Reach (createIndex db t f)
  | lookupIdx (db : DB) (t f : String) (v : Value) :
      Reach db → Reach (getByIndex db t f v).2

theorem mem_bucketAdd (b : Buckets) (v : Value) (rid : RId) (v' : Value) (x : RId) :
    x ∈ (aget (bucketAdd b v rid) v').getD [] ↔
      x ∈ (aget b v').getD [] ∨ (x = rid ∧ v' = v) := by
  unfold bucketAdd
  rw [aget_aset]
  by_cases h : v = v'
  · subst h
    rw [if_pos rfl]
    by_cases hr : rid ∈ (aget b v).getD []
    · rw [if_pos hr]
      simp only [Option.getD_some]
      exact ⟨fun hx => Or.inl hx, fun hx => hx.elim id (fun hp => hp.1 ▸ hr)⟩
    · rw [if_neg hr]
      simp only [Option.getD_some, List.mem_append, List.mem_singleton]
      constructor
      · rintro (hx | hx)
        · exact Or.inl hx
        · exact Or.inr ⟨hx, by trivial⟩
      · rintro (hx | hx)
        · exact Or.inl hx
        · exact Or.inr hx.1
  · rw [if_neg h]
    exact ⟨fun hx => Or.inl hx,
      fun hx => hx.elim id (fun hp => absurd hp.2.symm h)⟩

theorem mem_bucketDiscard (b : Buckets) (v : Value) (rid : RId) (v' : Value) (x : RId) :
    x ∈ (aget (bucketDiscard b v rid) v').getD [] ↔
      x ∈ (aget b v').getD [] ∧ (v' = v → x ≠ rid) := by
  unfold bucketDiscard
  rw [aget_aset]
  by_cases h : v = v'
  · subst h
    rw [if_pos rfl]
    simp only [Option.getD_some, List.mem_filter, decide_eq_true_eq]
    exact ⟨fun hp => ⟨hp.1, fun _ => hp.2⟩, fun hp => ⟨hp.1, hp.2 (by trivial)⟩⟩
  · rw [if_neg h]
    exact ⟨fun hx => ⟨hx, fun hc => absurd hc.symm h⟩, fun hp => hp.1⟩

theorem aget_idxAddAll (i : Idx) (r : Rec) (rid : RId) (f : String) :
    aget (idxAddAll i r rid) f = (aget i f).map (fun b =>
      match aget r f with
      | some v => bucketAdd b v rid
      | none => b) := by
  induction i with
  | nil => simp [idxAddAll]
  | cons p i' ih =>
    obtain ⟨f₀, b₀⟩ := p
    simp only [idxAddAll] at ih ⊢
    by_cases h₀ : f₀ = f
    · subst h₀
      cases h : aget r f₀ <;> simp [h]
    · cases h : aget r f₀ <;> simp [h, h₀, ih]

theorem aget_idxDiscardAll (i : Idx) (r : Rec) (rid : RId) (f : String) :
    aget (idxDiscardAll i r rid) f = (aget i f).map (fun b =>
      match aget r f with
      | some v => bucketDiscard b v rid
      | none => b) := by
  induction i with
  | nil => simp [idxDiscardAll]
  | cons p i' ih =>
    obtain ⟨f₀, b₀⟩ := p
    simp only [idxDiscardAll] at ih ⊢
    by_cases h₀ : f₀ = f
    · subst h₀
      cases h : aget r f₀ <;> simp [h]
    · cases h : aget r f₀ <;> simp [h, h₀, ih]

theorem getTbl_mk_aset (db : DB) (t : String) (x : Tbl) (n : RId) (t' : String) :
    getTbl ⟨aset db.tbls t x, n⟩ t' = if t = t' then x else getTbl db t' := by
  unfold getTbl
  simp only [aget_aset]
  by_cases h : t = t' <;> simp [h]

theorem getTbl_setTbl (db : DB) (t : String) (x : Tbl) (t' : String) :
    getTbl (setTbl db t x) t' = if t = t' then x else getTbl db t' :=
  getTbl_mk_aset db t x db.next t'

theorem isSome_aget_idxAddAll (i : Idx) (r : Rec) (rid : RId) (f : String) :
    (aget (idxAddAll i r rid) f).isSome = (aget i f).isSome := by
  rw [aget_idxAddAll]
  cases aget i f <;> rfl

theorem isSome_aget_idxDiscardAll (i : Idx) (r : Rec) (rid : RId) (f : String) :
    (aget (idxDiscardAll i r rid) f).isSome = (aget i f).isSome := by
  rw [aget_idxDiscardAll]
  cases aget i f <;> rfl

theorem mem_bucketIds_idxAddAll (i : Idx) (r : Rec) (rid : RId) (f : String)
    (v : Value) (x : RId) (hf : (aget i f).isSome) :
    x ∈ bucketIds (idxAddAll i r rid) f v ↔
      x ∈ bucketIds i f v ∨ (x = rid ∧ aget r f = some v) := by
  obtain ⟨b, hb⟩ := Option.isSome_iff_exists.mp hf
  unfold bucketIds
  rw [aget_idxAddAll, hb]
  cases hr : aget r f with
  | none =>
    simp only [Option.map_some', Option.getD_some]
    constructor
    · exact fun hx => Or.inl hx
    · rintro (hx | ⟨-, hx⟩)
      · exact hx
      · cases hx
  | some v0 =>
    simp only [Option.map_some', Option.getD_some]
    rw [mem_bucketAdd]
    constructor
    · rintro (hx | ⟨hx, rfl⟩)
      · exact Or.inl hx
      · exact Or.inr ⟨hx, rfl⟩
    · rintro (hx | ⟨hx, hv⟩)
      · exact Or.inl hx
      · exact Or.inr ⟨hx, (Option.some_inj.mp hv).symm⟩

theorem mem_bucketIds_idxDiscardAll (i : Idx) (r : Rec) (rid : RId) (f : String)
    (v : Value) (x : RId) (hf : (aget i f).isSome) :
    x ∈ bucketIds (idxDiscardAll i r rid) f v ↔
      x ∈ bucketIds i f v ∧ ¬ (x = rid ∧ aget r f = some v) := by
  obtain ⟨b, hb⟩ := Option.isSome_iff_exists.mp hf
  unfold bucketIds
  rw [aget_idxDiscardAll, hb]
  cases hr : aget r f with
  | none =>
    simp only [Option.map_some', Option.getD_some]
    constructor
    · exact fun hx => ⟨hx, fun hp => by cases hp.2⟩
    · exact fun hp => hp.1
  | some v0 =>
    simp only [Option.map_some', Option.getD_some]
    rw [mem_bucketDiscard]
    constructor
    · rintro ⟨h1, h2⟩
      refine ⟨h1, fun hp => ?_⟩
      exact h2 (Option.some_inj.mp hp.2).symm hp.1
    · rintro ⟨h1, h2⟩
      refine ⟨h1, fun hv hx => h2 ⟨hx, hv ▸ rfl⟩⟩

/-- Create preserves index consistency of the touched table, given the new
id is fresh. -/
theorem tblConsistent_createT (recs : AList RId Rec) (idx : Idx) (rid : RId)
    (data1 : Rec) (hfresh : aget recs rid = none)
    (hc : tblConsistent ⟨recs, idx⟩) :
    tblConsistent ⟨aset recs rid data1, idxAddAll idx data1 rid⟩ := by
  intro f hf v x
  dsimp only at hf ⊢
  rw [isSome_aget_idxAddAll] at hf
  rw [mem_bucketIds_idxAddAll idx data1 rid f v x hf]
  rw [aget_aset]
  by_cases hx : x = rid
  · subst hx
    rw [if_pos rfl]
    constructor
    · rintro (hmem | ⟨-, hd⟩)
      · obtain ⟨r, hr, -⟩ := (hc f hf v x).mp hmem
        rw [hfresh] at hr
        cases hr
      · exact ⟨data1, rfl, hd⟩
    · rintro ⟨r, hr, hd⟩
      cases hr
      exact Or.inr ⟨rfl, hd⟩
  · rw [if_neg (fun hc' => hx hc'.symm)]
    constructor
    · rintro (hmem | ⟨hx', -⟩)
      · exact (hc f hf v x).mp hmem
      · exact absurd hx' hx
    · exact fun hex => Or.inl ((hc f hf v x).mpr hex)

/-- Update preserves index consistency of the touched table. -/
theorem tblConsistent_updateT (recs : AList RId Rec) (idx : Idx) (rid : RId)
    (old newRec : Rec) (hold : aget recs rid = some old)
    (hc : tblConsistent ⟨recs, idx⟩) :
    tblConsistent ⟨aset recs rid newRec,
      idxAddAll (idxDiscardAll idx old rid) newRec rid⟩ := by
  intro f hf v x
  dsimp only at hf ⊢
  rw [isSome_aget_idxAddAll, isSome_aget_idxDiscardAll] at hf
  have hf1 : (aget (idxDiscardAll idx old rid) f).isSome := by
    rw [isSome_aget_idxDiscardAll]; exact hf
  rw [mem_bucketIds_idxAddAll _ newRec rid f v x hf1]
  rw [mem_bucketIds_idxDiscardAll idx old rid f v x hf]
  rw [aget_aset]
  by_cases hx : x = rid
  · subst hx
    rw [if_pos rfl]
    constructor
    · rintro (⟨hmem, hnot⟩ | ⟨-, hd⟩)
      · obtain ⟨r, hr, hrf⟩ := (hc f hf v x).mp hmem
        rw [hold] at hr
        cases hr
        exact absurd ⟨rfl, hrf⟩ hnot
      · exact ⟨newRec, rfl, hd⟩
    · rintro ⟨r, hr, hd⟩
      cases hr
      exact Or.inr ⟨rfl, hd⟩
  · rw [if_neg (fun hc' => hx hc'.symm)]
    constructor
    · rintro (⟨hmem, -⟩ | ⟨hx', -⟩)
      · exact (hc f hf v x).mp hmem
      · exact absurd hx' hx
    · intro hex
      exact Or.inl ⟨(hc f hf v x).mpr hex, fun hp => hx hp.1⟩

/-- Delete preserves index consistency of the touched table. -/
theorem tblConsistent_deleteT (recs : AList RId Rec) (idx : Idx) (rid : RId)
    (r : Rec) (hr : aget recs rid = some r) (hnd : (akeys recs).Nodup)
    (hc : tblConsistent ⟨recs, idx⟩) :
    tblConsistent ⟨adel recs rid, idxDiscardAll idx r rid⟩ := by
  intro f hf v x
  dsimp only at hf ⊢
  rw [isSome_aget_idxDiscardAll] at hf
  rw [mem_bucketIds_idxDiscardAll idx r rid f v x hf]
  by_cases hx : x = rid
  · subst hx
    constructor
    · rintro ⟨hmem, hnot⟩
      obtain ⟨r', hr', hrf⟩ := (hc f hf v x).mp hmem
      rw [hr] at hr'
      cases hr'
      exact absurd ⟨rfl, hrf⟩ hnot
    · rintro ⟨r', hr', -⟩
      rw [aget_adel_self recs x hnd] at hr'
      cases hr'
  · rw [aget_adel_ne recs rid x (fun hc' => hx hc'.symm)]
    constructor
    · rintro ⟨hmem, -⟩
      exact (hc f hf v x).mp hmem
    · intro hex
      exact ⟨(hc f hf v x).mpr hex, fun hp => hx hp.1⟩

theorem dbConsistent_createRecord (db : DB) (t : String) (d : Rec)
    (hwf : wfDB db) (hc : dbConsistent db) :
    dbConsistent (createRecord db t d).2 := by
  intro t'
  unfold createRecord
  dsimp only
  rw [getTbl_mk_aset]
  by_cases h : t = t'
  · rw [if_pos h]
    subst h
    apply tblConsistent_createT
    · apply aget_eq_none_of_not_mem
      intro hmem
      exact absurd ((hwf t).2 db.next hmem) (lt_irrefl db.next)
    · exact hc t
  · rw [if_neg h]
    exact hc t'

theorem dbConsistent_updateRecord (db : DB) (t : String) (rid : RId) (d : Rec)
    (hc : dbConsistent db) :
    dbConsistent (updateRecord db t rid d).2 := by
  unfold updateRecord
  dsimp only
  cases hold : aget (getTbl db t).recs rid with
  | none => exact hc
  | some old =>
    intro t'
    dsimp only
    rw [getTbl_setTbl]
    by_cases h : t = t'
    · rw [if_pos h]
      subst h
      exact tblConsistent_updateT (getTbl db t).recs (getTbl db t).idx rid old _ hold (hc t)
    · rw [if_neg h]
      exact hc t'

theorem dbConsistent_deleteRecord (db : DB) (t : String) (rid : RId)
    (hwf : wfDB db) (hc : dbConsistent db) :
    dbConsistent (deleteRecord db t rid).2 := by
  unfold deleteRecord
  dsimp only
  cases hr : aget (getTbl db t).recs rid with
  | none => exact hc
  | some r =>
    intro t'
    dsimp only
    rw [getTbl_setTbl]
    by_cases h : t = t'
    · rw [if_pos h]
      subst h
      exact tblConsistent_deleteT (getTbl db t).recs (getTbl db t).idx rid r hr
        (hwf t).1 (hc t)
    · rw [if_neg h]
      exact hc t'

/-- C1 (amended): in the base store, for a well-formed state (unique
storage keys below the fresh-id counter), index consistency — every
registered (table, field) bucket for a value holds exactly the ids of the
records whose stored field equals that value — is preserved by every
create_record, update_record and delete_record call.  (The original
reachable-state form of the claim fails: see the counterexample, where a
get_by_index read on a never-indexed field registers an empty index.) -/
theorem claim_c1_index_consistency (db : DB) (hwf : wfDB db) (hc : dbConsistent db) :
    (∀ t d, dbConsistent (createRecord db t d).2) ∧
    (∀ t rid d, dbConsistent (updateRecord db t rid d).2) ∧
    (∀ t rid, dbConsistent (deleteRecord db t rid).2) :=
  ⟨fun t d => dbConsistent_createRecord db t d hwf hc,
   fun t rid d => dbConsistent_updateRecord db t rid d hc,
   fun t rid => dbConsistent_deleteRecord db t rid hwf hc⟩

/-- Reachable state refuting the universally quantified form of C1: create
a record with a user_id field, then call get_by_index on the never-indexed
user_id field.  The defaultdict access registers the field with an empty
bucket while the matching record is already stored. -/
def c1Bad : DB :=
  (getByIndex (createRecord dbInit "orders" [("user_id", Value.vStr "u1")]).2
    "orders" "user_id" (Value.vStr "u1")).2

/-- C1 counterexample: a state reachable through the public operations of
InMemoryDB in which an indexed (table, field) bucket does not equal the set
of matching record ids — get_by_index on a not-yet-indexed field registers
an empty index bucket although a record with that field value exists. -/
theorem claim_c1_counterexample : Reach c1Bad ∧ ¬ dbConsistent c1Bad := by
  constructor
  · exact Reach.lookupIdx _ "orders" "user_id" (Value.vStr "u1")
      (Reach.create dbInit "orders" [("user_id", Value.vStr "u1")] Reach.init)
  · intro h
    have h1 := (h "orders" "user_id" (by decide) (Value.vStr "u1") 0).mpr
      ⟨[("user_id", Value.vStr "u1"), ("id", Value.vId 0)], by decide, by decide⟩
    exact absurd h1 (by decide)

/-- Witness for C1: the hypotheses hold at the freshly constructed store,
and the conclusion applies there. -/
theorem claim_c1_witness :
    wfDB dbInit ∧ dbConsistent dbInit ∧
      dbConsistent (createRecord dbInit "orders" [("user_id", Value.vStr "u1")]).2 := by
  have hwf : wfDB dbInit := by
    intro t
    constructor <;> simp [getTbl, dbInit, Tbl.empty]
  have hc : dbConsistent dbInit := by
    intro t f hf v x
    simp [getTbl, dbInit, Tbl.empty] at hf
  exact ⟨hwf, hc,
    (claim_c1_index_consistency dbInit hwf hc).1 "orders" [("user_id", Value.vStr "u1")]⟩

/-
Model of backend/app/crud.py (class InMemoryDB over the module-level
`tables` dict, record ids are strings).  The module initialises the dict
with exactly the keys users and orders and no operation ever adds or
removes a table key.
-/

/-- One crud table: string record id to record. -/
abbrev CTbl := AList String Rec

/-- The tables dict of the crud module. -/
abbrev CDB := AList String CTbl

/-- The initial module state: two empty tables. -/
def cInit : CDB := [("users", []), ("orders", [])]

/-- Error kinds raised by the crud store; the Python types are KeyError and
ValueError, named here by the kind of failure following the error taxonomy of the spec (kind, not type name). -/
inductive CErr where
  | noTable : CErr
  | dupRecord : CErr
  | noRecord : CErr
  | selfJoin : CErr
deriving DecidableEq, Repr

def chasTable (db : CDB) (t : String) : Bool := (aget db t).isSome

def cgetTable (db : CDB) (t : String) : CTbl := (aget db t).getD []

theorem cgetTable_aset (db : CDB) (t : String) (x : CTbl) (t' : String) :
    cgetTable (aset db t x) t' = if t = t' then x else cgetTable db t' := by
  unfold cgetTable
  rw [aget_aset]
  by_cases h : t = t' <;> simp [h]

/-- InMemoryDB.add_record: reject an unknown table, reject a duplicate id,
stamp created_at and updated_at with the call time, then store. -/
def addRecord (db : CDB) (t rid : String) (data : Rec) (now : Value) :
    Except CErr Rec × CDB :=
  if chasTable db t = false then (.error .noTable, db)
  else if (aget (cgetTable db t) rid).isSome then (.error .dupRecord, db)
  else
    let data1 := aset (aset data "created_at" now) "updated_at" now
    (.ok data1, aset db t (aset (cgetTable db t) rid data1))

/-- InMemoryDB.get_record: KeyError on an unknown table, else dict.get
(None when the id is absent — no error). -/
def getRecordC (db : CDB) (t rid : String) : Except CErr (Option Rec) :=
  if chasTable db t = false then .error .noTable
  else .ok (aget (cgetTable db t) rid)

/-- InMemoryDB.update_record: merge the supplied data over the current
record (update wins key by key) and stamp updated_at with the call time;
the id key is not stripped. -/
def updateRecordC (db : CDB) (t rid : String) (data : Rec) (now : Value) :
    Except CErr Rec × CDB :=
  if chasTable db t = false then (.error .noTable, db)
  else match aget (cgetTable db t) rid with
    | none => (.error .noRecord, db)
    | some cur =>
      let upd := aset (rupdate cur data) "updated_at" now
      (.ok upd, aset db t (aset (cgetTable db t) rid upd))

/-- InMemoryDB.delete_record: pop the record; when the table is users,
additionally delete every order whose user_id equals the deleted id — the
cascade lives inside the generic store.  (In the running module the orders
table always exists; the model reads it through the same total lookup.) -/
def deleteRecordC (db : CDB) (t rid : String) : Except CErr Bool × CDB :=
  if chasTable db t = false then (.error .noTable, db)
  else if (aget (cgetTable db t) rid).isNone then (.ok false, db)
  else
    let db1 := aset db t (adel (cgetTable db t) rid)
    if t = "users" then
      (.ok true, aset db1 "orders"
        ((cgetTable db1 "orders").filter
          (fun p => aget p.2 "user_id" != some (Value.vStr rid))))
    else (.ok true, db1)

/-- InMemoryDB.join_tables: reject unknown tables, reject a self join, then
run the nested loop: for each record of table1 carrying the key, scan
table2 for records with the same key value. -/
def joinTables (db : CDB) (t1 t2 k : String) : Except CErr (List (Rec × Rec)) :=
  if chasTable db t1 = false ∨ chasTable db t2 = false then .error .noTable
  else if t1 = t2 then .error .selfJoin
  else .ok ((cgetTable db t1).flatMap (fun p1 =>
    match aget p1.2 k with
    | none => []
    | some v => (cgetTable db t2).filterMap (fun p2 =>
        if aget p2.2 k = some v then some (p1.2, p2.2) else none)))

/-- InMemoryDB.dump_table: all records of the table. -/
def dumpTable (db : CDB) (t : String) : Except CErr (List Rec) :=
  if chasTable db t = false then .error .noTable
  else .ok ((cgetTable db t).map Prod.snd)

/-- C2 (amended): for the base store (db/base.py update_record) the merge
semantics hold exactly: every non-id key of the update data gets the
supplied value, every key absent from the update data keeps its prior
value, and the id field is never changed (an id key in the data is
stripped).  (The crud.py variant violates the claim: see the
counterexample, where an id key in the data overwrites the stored id.) -/
theorem claim_c2_update_merge (db : DB) (t : String) (rid : RId) (d : Rec)
    (old : Rec) (hold : aget (getTbl db t).recs rid = some old)
    (hnd : (akeys d).Nodup) :
    ∃ nr, aget (getTbl (updateRecord db t rid d).2 t).recs rid = some nr ∧
      (∀ k, k ≠ "id" → ∀ v, aget d k = some v → aget nr k = some v) ∧
      (∀ k, aget d k = none → aget nr k = aget old k) ∧
      aget nr "id" = aget old "id" := by
  unfold updateRecord
  dsimp only
  rw [hold]
  dsimp only
  rw [getTbl_setTbl, if_pos rfl]
  dsimp only
  rw [aget_aset, if_pos rfl]
  refine ⟨rupdate old (adel d "id"), rfl, ?_, ?_, ?_⟩
  · intro k hk v hv
    rw [aget_rupdate _ _ _ (akeys_adel_nodup d "id" hnd)]
    rw [aget_adel_ne d "id" k (fun hc => hk hc.symm), hv]
  · intro k hk
    rw [aget_rupdate _ _ _ (akeys_adel_nodup d "id" hnd)]
    by_cases hid : k = "id"
    · subst hid
      rw [aget_adel_self d "id" hnd]
    · rw [aget_adel_ne d "id" k (fun hc => hid hc.symm), hk]
  · rw [aget_rupdate _ _ _ (akeys_adel_nodup d "id" hnd)]
    rw [aget_adel_self d "id" hnd]

/-- State for the C2 base-store witness: one stored record with fields a, b
and the assigned id. -/
def c2Db : DB := (createRecord dbInit "users" [("a", Value.vNat 1), ("b", Value.vNat 2)]).2

/-- Witness for C2: the merge theorem applied at a concrete store, record
and update map. -/
theorem claim_c2_witness :
    aget (getTbl c2Db "users").recs 0
        = some [("a", Value.vNat 1), ("b", Value.vNat 2), ("id", Value.vId 0)] ∧
      (akeys [("b", Value.vNat 3), ("id", Value.vStr "evil")]).Nodup ∧
      (∃ nr, aget (getTbl (updateRecord c2Db "users" 0
            [("b", Value.vNat 3), ("id", Value.vStr "evil")]).2 "users").recs 0 = some nr ∧
        (∀ k, k ≠ "id" → ∀ v,
          aget [("b", Value.vNat 3), ("id", Value.vStr "evil")] k = some v →
            aget nr k = some v) ∧
        (∀ k, aget [("b", Value.vNat 3), ("id", Value.vStr "evil")] k = none →
          aget nr k = aget [("a", Value.vNat 1), ("b", Value.vNat 2), ("id", Value.vId 0)] k) ∧
        aget nr "id" = aget [("a", Value.vNat 1), ("b", Value.vNat 2), ("id", Value.vId 0)] "id") :=
  ⟨by decide, by decide,
    claim_c2_update_merge c2Db "users" 0 [("b", Value.vNat 3), ("id", Value.vStr "evil")]
      [("a", Value.vNat 1), ("b", Value.vNat 2), ("id", Value.vId 0)] (by decide) (by decide)⟩

/-- State for the C2 counterexample: the crud store with one user whose id
field is u1. -/
def c2CrudDb : CDB :=
  [("users", [("u1", [("id", Value.vStr "u1"), ("name", Value.vStr "A")])]), ("orders", [])]

/-- C2 counterexample: crud.py update_record does not strip an id key —
updating u1 with data containing id overwrites the stored identifier field,
refuting the claim for the cited crud.py variant. -/
theorem claim_c2_counterexample :
    aget (cgetTable c2CrudDb "users") "u1"
        = some [("id", Value.vStr "u1"), ("name", Value.vStr "A")] ∧
      aget (cgetTable
          (updateRecordC c2CrudDb "users" "u1" [("id", Value.vStr "u2")] Value.vNull).2
          "users") "u1"
        = some [("id", Value.vStr "u2"), ("name", Value.vStr "A"),
            ("updated_at", Value.vNull)] := by
  constructor
  · decide
  · decide

/-- C3 (amended): the generic delete_record of crud.py is itself cascading.
For a table other than users it removes at most the addressed record and
leaves every other table unchanged; for the users table it additionally
filters out of the orders table every order whose user_id equals the
deleted identifier, leaving tables other than users and orders unchanged.
The orders-table hypothesis records the module invariant that the tables
dict always contains orders (otherwise Python would raise KeyError). -/
theorem claim_c3_delete_frame (db : CDB) (hord : chasTable db "orders" = true) :
    (∀ t rid, chasTable db t = true → t ≠ "users" →
      (∀ t', t' ≠ t → cgetTable (deleteRecordC db t rid).2 t' = cgetTable db t') ∧
      cgetTable (deleteRecordC db t rid).2 t =
        (if (aget (cgetTable db t) rid).isNone then cgetTable db t
         else adel (cgetTable db t) rid)) ∧
    (∀ rid, chasTable db "users" = true → (aget (cgetTable db "users") rid).isSome →
      cgetTable (deleteRecordC db "users" rid).2 "users" =
        adel (cgetTable db "users") rid ∧
      cgetTable (deleteRecordC db "users" rid).2 "orders" =
        (cgetTable db "orders").filter
          (fun p => aget p.2 "user_id" != some (Value.vStr rid)) ∧
      (∀ t', t' ≠ "users" → t' ≠ "orders" →
        cgetTable (deleteRecordC db "users" rid).2 t' = cgetTable db t')) := by
  constructor
  · intro t rid ht htu
    cases hrec : (aget (cgetTable db t) rid).isNone with
    | true =>
      constructor
      · intro t' ht'
        simp [deleteRecordC, ht, hrec]
      · simp [deleteRecordC, ht, hrec]
    | false =>
      constructor
      · intro t' ht'
        simp [deleteRecordC, ht, hrec, htu, cgetTable_aset, Ne.symm ht']
      · simp [deleteRecordC, ht, hrec, htu, cgetTable_aset]
  · intro rid hu hrec
    cases hag : aget (cgetTable db "users") rid with
    | none => rw [hag] at hrec; cases hrec
    | some cur =>
      refine ⟨?_, ?_, ?_⟩
      · simp [deleteRecordC, hu, hag, cgetTable_aset]
      · simp [deleteRecordC, hu, hag, cgetTable_aset]
      · intro t' ht'u ht'o
        simp [deleteRecordC, hu, hag, cgetTable_aset, Ne.symm ht'u, Ne.symm ht'o]

/-- State for the C3 counterexample and witness: one user u1 and one order
o1 referencing it. -/
def c3Db : CDB :=
  [("users", [("u1", [("id", Value.vStr "u1")])]),
   ("orders", [("o1", [("id", Value.vStr "o1"), ("user_id", Value.vStr "u1")])])]

/-- C3 counterexample: the generic crud.py delete_record on the users table
also empties the orders table, refuting the claim that the store-level
delete leaves every record of every other table unchanged. -/
theorem claim_c3_counterexample :
    cgetTable (deleteRecordC c3Db "users" "u1").2 "orders" = [] ∧
      cgetTable c3Db "orders" ≠ [] := by
  constructor
  · decide
  · decide

/-- Witness for C3: the frame theorem applied at the concrete two-table
state. -/
theorem claim_c3_witness :
    chasTable c3Db "orders" = true ∧ chasTable c3Db "users" = true ∧
      (aget (cgetTable c3Db "users") "u1").isSome = true ∧
      cgetTable (deleteRecordC c3Db "users" "u1").2 "users" =
        adel (cgetTable c3Db "users") "u1" ∧
      cgetTable (deleteRecordC c3Db "users" "u1").2 "orders" =
        (cgetTable c3Db "orders").filter
          (fun p => aget p.2 "user_id" != some (Value.vStr "u1")) :=
  ⟨by decide, by decide, by decide,
    ((claim_c3_delete_frame c3Db (by decide)).2 "u1" (by decide) (by decide)).1,
    ((claim_c3_delete_frame c3Db (by decide)).2 "u1" (by decide) (by decide)).2.1⟩

/-- The records of a crud table, as dump_table returns them. -/
def recsOf (db : CDB) (t : String) : List Rec :=
  (cgetTable db t).map Prod.snd

/-- All (record of A, record of B) pairs. -/
def allPairs (A B : List Rec) : List (Rec × Rec) :=
  A.flatMap (fun r1 => B.map (fun r2 => (r1, r2)))

/-- Reference join stated from the words of the spec: one output element per
pair of records from A and B agreeing on the key, i.e. both carry the key
and with equal values; a record of A with no match contributes nothing. -/
def nestedLoopJoin (A B : List Rec) (k : String) : List (Rec × Rec) :=
  (allPairs A B).filter (fun p =>
    match aget p.1 k, aget p.2 k with
    | some v1, some v2 => v1 == v2
    | _, _ => false)

theorem nestedLoopJoin_nil (B : List Rec) (k : String) :
    nestedLoopJoin [] B k = [] := rfl

theorem nestedLoopJoin_cons (r1 : Rec) (A B : List Rec) (k : String) :
    nestedLoopJoin (r1 :: A) B k =
      (B.map (fun r2 => (r1, r2))).filter (fun p =>
        match aget p.1 k, aget p.2 k with
        | some v1, some v2 => v1 == v2
        | _, _ => false) ++ nestedLoopJoin A B k := by
  unfold nestedLoopJoin allPairs
  rw [List.flatMap_cons, List.filter_append]

/-- One outer-loop row of join_tables equals the corresponding filtered
slice of the reference join. -/
theorem joinTables_row (r1 : Rec) (ct2 : CTbl) (k : String) :
    (match aget r1 k with
     | none => []
     | some v => ct2.filterMap (fun p2 =>
         if aget p2.2 k = some v then some (r1, p2.2) else none)) =
    ((ct2.map Prod.snd).map (fun r2 => (r1, r2))).filter (fun p =>
      match aget p.1 k, aget p.2 k with
      | some v1, some v2 => v1 == v2
      | _, _ => false) := by
  cases hv : aget r1 k with
  | none =>
    induction ct2 with
    | nil => rfl
    | cons p2 ct2' ih =>
      simp only [List.map_cons, List.filter_cons, hv]
      exact ih
  | some v =>
    induction ct2 with
    | nil => rfl
    | cons p2 ct2' ih =>
      dsimp only at ih
      cases h2 : aget p2.2 k with
      | none =>
        simp [List.filterMap_cons, List.map_cons, List.filter_cons, hv, h2, ih]
      | some v2 =>
        by_cases hv2 : v2 = v
        · subst hv2
          simp [List.filterMap_cons, List.map_cons, List.filter_cons, hv, h2, ih]
        · have hb : (v == v2) = false := beq_eq_false_iff_ne.mpr (Ne.symm hv2)
          simp [List.filterMap_cons, List.map_cons, List.filter_cons, hv, h2, hb,
            hv2, ih]

/-- join_tables on distinct known tables computes exactly the reference
nested-loop join of the two record lists. -/
theorem joinTables_eq_nestedLoop (db : CDB) (t1 t2 k : String)
    (h1 : chasTable db t1 = true) (h2 : chasTable db t2 = true) (h3 : t1 ≠ t2) :
    joinTables db t1 t2 k = .ok (nestedLoopJoin (recsOf db t1) (recsOf db t2) k) := by
  unfold joinTables
  rw [if_neg (by simp [h1, h2]), if_neg h3]
  congr 1
  unfold recsOf
  induction cgetTable db t1 with
  | nil => rfl
  | cons p1 ct1' ih =>
    rw [List.flatMap_cons, List.map_cons, nestedLoopJoin_cons, ih, joinTables_row]

/-
Model of backend/app/core/db.py (class MemoryDB with typed users/orders
dicts keyed by UUID) and its join_user_orders.
-/

structure MUser where
  id : Nat
  email : String
  full_name : String
  hashed_password : String
  created_at : Int
deriving DecidableEq, Repr

structure MOrder where
  id : Nat
  user_id : Nat
  product_name : String
  quantity : Nat
  price : Int
  created_at : Int
deriving DecidableEq, Repr

structure MUserOrder where
  user_id : Nat
  user_email : String
  user_full_name : String
  order_id : Nat
  product_name : String
  quantity : Nat
  price : Int
  order_created_at : Int
deriving DecidableEq, Repr

structure MDB where
  users : AList Nat MUser
  orders : AList Nat MOrder
deriving DecidableEq, Repr

/-- The UserOrder row built by join_user_orders. -/
def mkUserOrder (u : MUser) (o : MOrder) : MUserOrder :=
  ⟨u.id, u.email, u.full_name, o.id, o.product_name, o.quantity, o.price, o.created_at⟩

/-- MemoryDB.join_user_orders: for each order, look its user up in the
users dict keyed by id; emit a joined row when found. -/
def joinUserOrders (db : MDB) : List MUserOrder :=
  db.orders.flatMap (fun p =>
    match aget db.users p.2.user_id with
    | some u => [mkUserOrder u p.2]
    | none => [])

/-- Reference form of the user/order join from the words of the spec: one row
per (user, order) pair whose user id equals the user_id of the order. -/
def nestedLoopUserOrders (db : MDB) : List MUserOrder :=
  db.orders.flatMap (fun p =>
    db.users.filterMap (fun q =>
      if q.2.id = p.2.user_id then some (mkUserOrder q.2 p.2) else none))

theorem filterMap_users_none (l : AList Nat MUser) (x : Nat)
    (f : MUser → MUserOrder)
    (hids : ∀ p ∈ l, (p : Nat × MUser).2.id = p.1) (hx : x ∉ akeys l) :
    l.filterMap (fun q => if q.2.id = x then some (f q.2) else none) = [] := by
  induction l with
  | nil => rfl
  | cons p l' ih =>
    obtain ⟨kk, u⟩ := p
    simp only [akeys_cons, List.mem_cons, not_or] at hx
    have hid : u.id = kk := hids (kk, u) (List.mem_cons_self _ _)
    simp only [List.filterMap_cons]
    rw [if_neg (by rw [hid]; exact fun hc => hx.1 hc.symm)]
    exact ih (fun p hp => hids p (List.mem_cons_of_mem _ hp)) hx.2

theorem filterMap_users_lookup (l : AList Nat MUser) (x : Nat)
    (f : MUser → MUserOrder)
    (hids : ∀ p ∈ l, (p : Nat × MUser).2.id = p.1) (hnd : (akeys l).Nodup) :
    l.filterMap (fun q => if q.2.id = x then some (f q.2) else none) =
      match aget l x with
      | some u => [f u]
      | none => [] := by
  induction l with
  | nil => rfl
  | cons p l' ih =>
    obtain ⟨kk, u⟩ := p
    simp only [akeys_cons, List.nodup_cons] at hnd
    have hid : u.id = kk := hids (kk, u) (List.mem_cons_self _ _)
    have hids' : ∀ p ∈ l', (p : Nat × MUser).2.id = p.1 :=
      fun p hp => hids p (List.mem_cons_of_mem _ hp)
    simp only [List.filterMap_cons, aget_cons]
    by_cases hk : kk = x
    · subst hk
      rw [if_pos hid, if_pos rfl]
      rw [filterMap_users_none l' kk f hids' hnd.1]
    · rw [if_neg (by rw [hid]; exact hk), if_neg hk]
      exact ih hids' hnd.2

/-- join_user_orders equals the reference nested loop whenever the users
dict is keyed consistently (each stored user sits under its own id, keys
unique). -/
theorem joinUserOrders_eq_nestedLoop (db : MDB)
    (hids : ∀ p ∈ db.users, (p : Nat × MUser).2.id = p.1)
    (hnd : (akeys db.users).Nodup) :
    joinUserOrders db = nestedLoopUserOrders db := by
  unfold joinUserOrders nestedLoopUserOrders
  induction db.orders with
  | nil => rfl
  | cons p os ih =>
    rw [List.flatMap_cons, List.flatMap_cons, ih,
      filterMap_users_lookup db.users p.2.user_id (fun u => mkUserOrder u p.2) hids hnd]

/-- C4: the join output equals the brute-force nested-loop inner join.
For crud.py join_tables (the general store join) the result on distinct
known tables is exactly the reference filtered-pairs join of the two
record lists; the join consults no index structure — its output is a
function of the two record lists alone, so it is the same whether or not
any index exists.  For core/db.py join_user_orders, which uses the keyed
users dict as its lookup index, the output equals the same nested-loop
reference join whenever the users dict is keyed consistently. -/
theorem claim_c4_join_equivalence :
    (∀ (db : CDB) (t1 t2 k : String), chasTable db t1 = true →
      chasTable db t2 = true → t1 ≠ t2 →
      joinTables db t1 t2 k = .ok (nestedLoopJoin (recsOf db t1) (recsOf db t2) k)) ∧
    (∀ (db : MDB), (∀ p ∈ db.users, (p : Nat × MUser).2.id = p.1) →
      (akeys db.users).Nodup → joinUserOrders db = nestedLoopUserOrders db) :=
  ⟨joinTables_eq_nestedLoop, joinUserOrders_eq_nestedLoop⟩

/-- Crud state for the C4 witness. -/
def c4Db : CDB :=
  [("users", [("u1", [("uid", Value.vStr "x")])]),
   ("orders", [("o1", [("uid", Value.vStr "x")]), ("o2", [("uid", Value.vStr "y")])])]

/-- MemoryDB state for the C4 witness. -/
def c4Mdb : MDB :=
  ⟨[(1, ⟨1, "a@x.com", "A", "h", 0⟩)], [(10, ⟨10, 1, "p", 1, 5, 0⟩)]⟩

/-- Witness for C4: both equivalences applied at concrete states. -/
theorem claim_c4_witness :
    chasTable c4Db "users" = true ∧ chasTable c4Db "orders" = true ∧
      ("users" : String) ≠ "orders" ∧
      joinTables c4Db "users" "orders" "uid" =
        .ok (nestedLoopJoin (recsOf c4Db "users") (recsOf c4Db "orders") "uid") ∧
      joinUserOrders c4Mdb = nestedLoopUserOrders c4Mdb :=
  ⟨by decide, by decide, by decide,
    claim_c4_join_equivalence.1 c4Db "users" "orders" "uid" (by decide) (by decide)
      (by decide),
    claim_c4_join_equivalence.2 c4Mdb (by decide) (by decide)⟩

/-- C5: join_tables fails with an InvalidJoin-kind error whenever the two
table names are identical or either name is unknown to the store; the two
error kinds (unknown table, self join) are exactly the InvalidJoin taxonomy of the spec. -/
theorem claim_c5_join_rejection (db : CDB) (t1 t2 k : String)
    (h : t1 = t2 ∨ chasTable db t1 = false ∨ chasTable db t2 = false) :
    ∃ e, joinTables db t1 t2 k = .error e ∧
      (e = CErr.noTable ∨ e = CErr.selfJoin) := by
  unfold joinTables
  by_cases hu : chasTable db t1 = false ∨ chasTable db t2 = false
  · rw [if_pos hu]
    exact ⟨.noTable, rfl, Or.inl rfl⟩
  · rw [if_neg hu]
    have ht : t1 = t2 := by tauto
    rw [if_pos ht]
    exact ⟨.selfJoin, rfl, Or.inr rfl⟩

/-- Witness for C5: the rejection theorem at the concrete instance named by the spec,
together with the exact self-join error it produces. -/
theorem claim_c5_witness :
    (("orders" : String) = "orders" ∨ chasTable cInit "orders" = false ∨
        chasTable cInit "orders" = false) ∧
      (∃ e, joinTables cInit "orders" "orders" "id" = .error e ∧
        (e = CErr.noTable ∨ e = CErr.selfJoin)) ∧
      joinTables cInit "orders" "orders" "id" = .error CErr.selfJoin :=
  ⟨Or.inl rfl,
    claim_c5_join_rejection cInit "orders" "orders" "id" (Or.inl rfl),
    by rfl⟩

/-- C6 (amended): for the base store composed with the service layer, a
read fails with RecordNotFoundError exactly when the identifier is absent
from the table (given every stored record is a non-empty dict, which
create_record guarantees by always storing the id field), and a table that
does not exist reads as a table with no records — the missing table itself
is not an error.  (get_record of crud.py instead raises KeyError for an
unknown table and signals a missing identifier by returning None: see the
counterexample.) -/
theorem claim_c6_read_not_found (db : DB) (t : String) (rid : RId)
    (hne : ∀ rid' r, aget (getTbl db t).recs rid' = some r → r ≠ []) :
    (serviceGet db t rid = .error .recordNotFound ↔
      aget (getTbl db t).recs rid = none) ∧
    (aget db.tbls t = none → serviceGet db t rid = .error .recordNotFound) := by
  constructor
  · unfold serviceGet getRecord
    cases hag : aget (getTbl db t).recs rid with
    | none => simp
    | some r =>
      dsimp only
      rw [if_neg (hne rid r hag)]
      simp
  · intro hmiss
    unfold serviceGet getRecord getTbl
    rw [hmiss]
    rfl

/-- Witness for C6: the theorem at the freshly constructed store, whose
users table does not exist yet — the read signals RecordNotFoundError, not
a table error. -/
theorem claim_c6_witness :
    (∀ rid' r, aget (getTbl dbInit "users").recs rid' = some r → r ≠ []) ∧
      (serviceGet dbInit "users" 5 = .error .recordNotFound ↔
        aget (getTbl dbInit "users").recs 5 = none) ∧
      (aget dbInit.tbls "users" = none →
        serviceGet dbInit "users" 5 = .error .recordNotFound) :=
  ⟨fun rid' r h => by simp [getTbl, dbInit, Tbl.empty] at h,
    (claim_c6_read_not_found dbInit "users" 5
      (fun rid' r h => by simp [getTbl, dbInit, Tbl.empty] at h)).1,
    (claim_c6_read_not_found dbInit "users" 5
      (fun rid' r h => by simp [getTbl, dbInit, Tbl.empty] at h)).2⟩

/-- C6 counterexample: crud.py get_record raises KeyError for a table that
does not exist, refuting the claim that a missing table is treated as a
table with no records for reads. -/
theorem claim_c6_counterexample :
    getRecordC cInit "products" "p1" = .error CErr.noTable := by rfl

/-- C7: crud.py add_record — the store variant accepting caller-supplied
record ids — fails with the Duplicate-kind error (Python raises ValueError;
the spec names the kind DuplicateRecordError) exactly when the
supplied id already exists in the known table, the tables are unchanged by
the failed call, and the call succeeds otherwise. -/
theorem claim_c7_duplicate_create (db : CDB) (t rid : String) (d : Rec)
    (now : Value) (ht : chasTable db t = true) :
    ((aget (cgetTable db t) rid).isSome = true →
      (addRecord db t rid d now).1 = .error .dupRecord ∧
      (addRecord db t rid d now).2 = db) ∧
    ((aget (cgetTable db t) rid).isSome = false →
      (addRecord db t rid d now).1 =
        .ok (aset (aset d "created_at" now) "updated_at" now)) := by
  constructor
  · intro hdup
    unfold addRecord
    rw [if_neg (by simp [ht]), if_pos hdup]
    exact ⟨rfl, rfl⟩
  · intro hfresh
    unfold addRecord
    rw [if_neg (by simp [ht]), if_neg (by simp [hfresh])]

/-- State for the C7 witness: a users table already holding id u1. -/
def c7Db : CDB := [("users", [("u1", [("a", Value.vNat 1)])]), ("orders", [])]

/-- Witness for C7: the duplicate-create theorem at a concrete store. -/
theorem claim_c7_witness :
    chasTable c7Db "users" = true ∧
      (aget (cgetTable c7Db "users") "u1").isSome = true ∧
      (addRecord c7Db "users" "u1" [("b", Value.vNat 2)] Value.vNull).1 =
        .error .dupRecord ∧
      (addRecord c7Db "users" "u1" [("b", Value.vNat 2)] Value.vNull).2 = c7Db :=
  ⟨by decide, by decide,
    ((claim_c7_duplicate_create c7Db "users" "u1" [("b", Value.vNat 2)] Value.vNull
        (by decide)).1 (by decide)).1,
    ((claim_c7_duplicate_create c7Db "users" "u1" [("b", Value.vNat 2)] Value.vNull
        (by decide)).1 (by decide)).2⟩

/-- C9: get_by_index is total at the public interface and raises nothing:
its value is always the (possibly empty) bucket of the looked-up value, and
on a field with no registered index — including tables never written to —
it is the empty id set rather than an error. -/
theorem claim_c9_get_by_index_total (db : DB) (t f : String) (v : Value) :
    (getByIndex db t f v).1 = bucketIds (getTbl db t).idx f v ∧
    (aget (getTbl db t).idx f = none → (getByIndex db t f v).1 = []) := by
  constructor
  · rfl
  · intro h
    show (aget ((aget (getTbl db t).idx f).getD []) v).getD [] = []
    rw [h]
    rfl

/-- Witness for C9: the lookup on the never-indexed orders.user_id of the
fresh store returns the empty set. -/
theorem claim_c9_witness :
    aget (getTbl dbInit "orders").idx "user_id" = none ∧
      (getByIndex dbInit "orders" "user_id" (Value.vStr "u1")).1 = [] :=
  ⟨by decide,
    (claim_c9_get_by_index_total dbInit "orders" "user_id" (Value.vStr "u1")).2
      (by decide)⟩

/-- C10: clear_table removes all records of the table and drops the whole
index registration (not merely emptying buckets); consequently a record
created in the table after the clear is added to no index, and get_by_index
returns the empty set for every field and value — also when the new record
has that field equal to the looked-up value. -/
theorem claim_c10_clear_drops_indexes (db : DB) (t : String) (d : Rec)
    (f : String) (v : Value) :
    (getTbl (clearTable db t) t).recs = [] ∧
    (getTbl (clearTable db t) t).idx = [] ∧
    (getTbl (createRecord (clearTable db t) t d).2 t).idx = [] ∧
    (getByIndex (createRecord (clearTable db t) t d).2 t f v).1 = [] := by
  have h1 : getTbl (clearTable db t) t = Tbl.empty := by
    unfold clearTable
    rw [getTbl_setTbl, if_pos rfl]
  have h3 : (getTbl (createRecord (clearTable db t) t d).2 t).idx = [] := by
    unfold createRecord
    dsimp only
    rw [getTbl_mk_aset, if_pos rfl, h1]
    rfl
  refine ⟨by rw [h1]; rfl, by rw [h1]; rfl, h3, ?_⟩
  show (aget ((aget (getTbl (createRecord (clearTable db t) t d).2 t).idx f).getD [])
      v).getD [] = []
  rw [h3]
  rfl

/-
Heap model for the aliasing claims: record dicts live in heap cells
addressed by naturals and the stores keep addresses, so storing a copy and
storing a live reference are distinguishable.  In-place mutation of a
Python dict is overwriting its cell.
-/

abbrev Addr := Nat

structure Heap where
  cells : AList Addr Rec
  next : Addr
deriving DecidableEq, Repr

def hget (h : Heap) (a : Addr) : Rec := (aget h.cells a).getD []

def hset (h : Heap) (a : Addr) (r : Rec) : Heap := ⟨aset h.cells a r, h.next⟩

/-- Allocate a fresh cell: a new Python dict object. -/
def halloc (h : Heap) (r : Rec) : Addr × Heap :=
  (h.next, ⟨aset h.cells h.next r, h.next + 1⟩)

/-- crud.py tables in the heap model: record id to the address of the
record object. -/
structure CHState where
  heap : Heap
  tabs : AList String (AList String Addr)
deriving DecidableEq, Repr

/-- crud.py add_record in the heap model: the dict of the caller at address a is
mutated in place with the timestamps and then stored by reference — no
copy is taken. -/
def addRecordH (st : CHState) (t rid : String) (a : Addr) (now : Value) :
    Except CErr Unit × CHState :=
  if (aget st.tabs t).isNone then (.error .noTable, st)
  else if (aget ((aget st.tabs t).getD []) rid).isSome then (.error .dupRecord, st)
  else
    let r := hget st.heap a
    let r1 := aset (aset r "created_at" now) "updated_at" now
    let h1 := hset st.heap a r1
    (.ok (), ⟨h1, aset st.tabs t (aset ((aget st.tabs t).getD []) rid a)⟩)

/-- crud.py get_record in the heap model: the stored address is returned —
a live reference, not a copy. -/
def getRecordH (st : CHState) (t rid : String) : Except CErr (Option Addr) :=
  if (aget st.tabs t).isNone then .error .noTable
  else .ok (aget ((aget st.tabs t).getD []) rid)

/-- db/base.py storage in the heap model: per table, record id to the
address of the stored record object (indexes play no part in the aliasing
claims and are omitted here). -/
structure BHState where
  heap : Heap
  tabs : AList String (AList RId Addr)
  nextId : RId
deriving DecidableEq, Repr

/-- create_record in the heap model: data.copy() allocates a fresh cell
holding the current value of the payload, the id field is added to the copy, and
the fresh address is stored; the cell of the caller is left alone. -/
def createRecordBH (st : BHState) (t : String) (a : Addr) : RId × BHState :=
  let rid := st.nextId
  let data1 := aset (hget st.heap a) "id" (Value.vId rid)
  let (a1, h1) := halloc st.heap data1
  (rid, ⟨h1, aset st.tabs t (aset ((aget st.tabs t).getD []) rid a1), rid + 1⟩)

/-- get_record in the heap model: record.copy() allocates a fresh cell with
the current value of the stored record and its address is returned (None when
the record is absent or falsy-empty). -/
def getRecordBH (st : BHState) (t : String) (rid : RId) : Option Addr × BHState :=
  match aget ((aget st.tabs t).getD []) rid with
  | none => (none, st)
  | some a =>
    if hget st.heap a = [] then (none, st)
    else
      let (a1, h1) := halloc st.heap (hget st.heap a)
      (some a1, ⟨h1, st.tabs, st.nextId⟩)

/-- One step of list_records in the heap model: copy the next record into a
fresh cell. -/
def listStep (acc : List Addr × BHState) (p : RId × Addr) : List Addr × BHState :=
  let (a1, h1) := halloc acc.2.heap (hget acc.2.heap p.2)
  (acc.1 ++ [a1], ⟨h1, acc.2.tabs, acc.2.nextId⟩)

/-- list_records in the heap model: a fresh copy cell per stored record. -/
def listRecordsBH (st : BHState) (t : String) : List Addr × BHState :=
  ((aget st.tabs t).getD []).foldl listStep ([], st)

/-- The record value a read of (t, rid) observes: the contents of the
stored cell. -/
def readVal (st : BHState) (t : String) (rid : RId) : Option Rec :=
  match aget ((aget st.tabs t).getD []) rid with
  | none => none
  | some a => some (hget st.heap a)

theorem listRecordsBH_mem_le (l : AList RId Addr) :
    ∀ (acc : List Addr × BHState) (a1 : Addr), a1 ∈ (l.foldl listStep acc).1 →
      a1 ∈ acc.1 ∨ acc.2.heap.next ≤ a1 := by
  induction l with
  | nil => exact fun acc a1 h => Or.inl h
  | cons p l' ih =>
    intro acc a1 h
    rw [List.foldl_cons] at h
    rcases ih (listStep acc p) a1 h with h1 | h1
    · unfold listStep halloc at h1
      dsimp only at h1
      rcases List.mem_append.mp h1 with h2 | h2
      · exact Or.inl h2
      · exact Or.inr (le_of_eq (List.mem_singleton.mp h2).symm)
    · unfold listStep halloc at h1
      dsimp only at h1
      exact Or.inr (le_trans (Nat.le_succ _) h1)

/-- C8 (amended): the copy guarantees hold for db/base.py: (i) create
stores a fresh copy of the payload, so overwriting the dict of the caller after
the call leaves the stored record equal to the payload at call time plus
the assigned id; (ii) overwriting any non-stored cell — in particular a
returned copy — never changes what a later read observes; (iii) the
address returned by read is never a stored address; (iv) no address
returned by list is a stored address.  (crud.py instead stores and returns
live references and even mutates the dict of the caller: see the
counterexample.) -/
theorem claim_c8_copy_isolation (st : BHState) (t : String) (a : Addr)
    (hwf : ∀ t' rid' a0,
      aget ((aget st.tabs t').getD []) rid' = some a0 → a0 < st.heap.next)
    (ha : a < st.heap.next) :
    (∀ r', readVal
        ⟨hset (createRecordBH st t a).2.heap a r',
          (createRecordBH st t a).2.tabs, (createRecordBH st t a).2.nextId⟩
        t (createRecordBH st t a).1
      = some (aset (hget st.heap a) "id" (Value.vId st.nextId))) ∧
    (∀ a' r' t0 rid0,
      (∀ t' rid' a0, aget ((aget st.tabs t').getD []) rid' = some a0 → a0 ≠ a') →
      readVal ⟨hset st.heap a' r', st.tabs, st.nextId⟩ t0 rid0 = readVal st t0 rid0) ∧
    (∀ rid a1, (getRecordBH st t rid).1 = some a1 →
      ∀ t' rid' a0, aget ((aget st.tabs t').getD []) rid' = some a0 → a0 ≠ a1) ∧
    (∀ a1, a1 ∈ (listRecordsBH st t).1 →
      ∀ t' rid' a0, aget ((aget st.tabs t').getD []) rid' = some a0 → a0 ≠ a1) := by
  refine ⟨?_, ?_, ?_, ?_⟩
  · intro r'
    have hne : a ≠ st.heap.next := Nat.ne_of_lt ha
    simp [createRecordBH, halloc, readVal, hset, hget, aget_aset, hne]
  · intro a' r' t0 rid0 hns
    unfold readVal hset hget
    dsimp only
    cases hag : aget ((aget st.tabs t0).getD []) rid0 with
    | none => rfl
    | some a0 =>
      dsimp only
      rw [aget_aset, if_neg (fun hc => hns t0 rid0 a0 hag hc.symm)]
  · intro rid a1 hres t' rid' a0 hst
    unfold getRecordBH at hres
    cases hag : aget ((aget st.tabs t).getD []) rid with
    | none => rw [hag] at hres; cases hres
    | some ar =>
      rw [hag] at hres
      dsimp only at hres
      by_cases hempty : hget st.heap ar = []
      · rw [if_pos hempty] at hres; cases hres
      · rw [if_neg hempty] at hres
        unfold halloc at hres
        dsimp only at hres
        cases hres
        exact Nat.ne_of_lt (hwf t' rid' a0 hst)
  · intro a1 hmem t' rid' a0 hst
    rcases listRecordsBH_mem_le ((aget st.tabs t).getD []) ([], st) a1 hmem with h | h
    · cases h
    · exact Nat.ne_of_lt (lt_of_lt_of_le (hwf t' rid' a0 hst) h)

/-- Heap state for the C8 witness: one caller-owned dict at address 0 and
an empty base store. -/
def c8WSt : BHState := ⟨⟨[(0, [("x", Value.vNat 1)])], 1⟩, [], 0⟩

/-- Witness for C8: the copy-isolation theorem applied at the concrete
state, hypotheses discharged there. -/
theorem claim_c8_witness :
    (∀ t' rid' a0,
      aget ((aget c8WSt.tabs t').getD []) rid' = some a0 → a0 < c8WSt.heap.next) ∧
      (0 : Addr) < c8WSt.heap.next ∧
      (∀ r', readVal
          ⟨hset (createRecordBH c8WSt "users" 0).2.heap 0 r',
            (createRecordBH c8WSt "users" 0).2.tabs,
            (createRecordBH c8WSt "users" 0).2.nextId⟩
          "users" (createRecordBH c8WSt "users" 0).1
        = some (aset (hget c8WSt.heap 0) "id" (Value.vId c8WSt.nextId))) := by
  have hwf : ∀ t' rid' a0,
      aget ((aget c8WSt.tabs t').getD []) rid' = some a0 → a0 < c8WSt.heap.next := by
    intro t' rid' a0 h
    simp [c8WSt] at h
  exact ⟨hwf, by decide, (claim_c8_copy_isolation c8WSt "users" 0 hwf (by decide)).1⟩

/-- Heap states for the C8 counterexample: the dict of the caller lives at
address 0; crud.py add_record stores that address; the caller then mutates
its dict. -/
def c8St : CHState :=
  ⟨⟨[(0, [("x", Value.vNat 1)])], 1⟩, [("users", []), ("orders", [])]⟩

def c8St1 : CHState := (addRecordH c8St "users" "u1" 0 Value.vNull).2

def c8St2 : CHState :=
  ⟨hset c8St1.heap 0 (aset (hget c8St1.heap 0) "x" (Value.vNat 2)), c8St1.tabs⟩

/-- C8 counterexample: crud.py add_record stores the dict of the caller by
reference — get_record hands back the very address the caller owns, and the
post-create mutation by the caller (x set to 2) is visible through the store,
refuting the copy guarantee for the cited crud.py variant. -/
theorem claim_c8_counterexample :
    getRecordH c8St2 "users" "u1" = .ok (some 0) ∧
      aget (hget c8St2.heap 0) "x" = some (Value.vNat 2) ∧
      aget (hget c8St.heap 0) "x" = some (Value.vNat 1) :=
  ⟨by rfl, by decide, by decide⟩

end InMemDB
